import Mathlib

/-
Verification of the view-sequence reconciliation core of src/src/view/sequence.rs:
the `ViewSequence` trait's implementations, namely the `Concat` combinator
(lines 89-165) and the fixed-arity tuple implementations generated by
`impl_view_tuple!` (lines 211-308, instantiated for arities 1..10).

The embedding is shallow: machine integers become `Nat`/`Int`, a Rust panic
site becomes an `Option` returning `none`, `&mut` state becomes explicit
state passing.  Types that the sequence core only consumes (`Id`,
`EventResult`, `ChangeFlags`, `Pod`) are not under src/ and are modelled
from the spec, as marked on each.
-/

namespace XilemSeq

/-- Modelled from the spec: `crate::id::Id` is not under src/.  Spec section 3:
an opaque token, unique among currently-live nodes, comparable for equality.
Modelled as `Nat`. -/
abbrev Id := Nat

/-- Model of `Position` (src/src/view/sequence.rs lines 199-203): the tagged
selector `First` / `Sequence(usize)` / `Last`. -/
inductive Position where
  | First
  | Sequence (n : Nat)
  | Last

/-- Model of Rust's `Range<isize>` as used by `ViewSequence::request`; the
field `stop` stands for Rust's `end` (a Lean keyword). -/
structure RangeI where
  start : Int
  stop : Int
deriving DecidableEq

/-- Modelled from the spec: `crate::event::EventResult` is not under src/.
Spec section 6: a result type with at least variants "handled with resulting
action", "not handled", and "stale". -/
inductive EventResult (A : Type) where
  | Action (a : A)
  | NotHandled
  | Stale
deriving DecidableEq

/-- Modelled from the spec: `crate::widget::ChangeFlags` is not under src/.
Spec section 3: "a bitset-like accumulator"; modelled as `Nat` read as a
bitset. -/
abbrev ChangeFlags := Nat

/-- Model of `ChangeFlags::union` (used at src/src/view/sequence.rs line 107):
union of bitsets, i.e. bitwise or. -/
def ChangeFlags.union (a b : ChangeFlags) : ChangeFlags := a.lor b

/-- Modelled from the spec: `crate::widget::Pod` is not under src/.  Spec
section 6: a widget handle that the sequence core "never inspects ..., only
holds and forwards"; its `request_update` method (called by the tuple
`rebuild`, line 240) marks the widget as needing an update pass.  Modelled as
an opaque content stand-in plus that mark. -/
structure Pod where
  widget : Nat
  updateRequested : Bool
deriving DecidableEq

/-- Model of `Pod::request_update` (called at src/src/view/sequence.rs line
240): marks the widget as needing an update pass. -/
def Pod.request_update (p : Pod) : Pod := { p with updateRequested := true }

/-- An abstract implementation of the `ViewSequence` trait
(src/src/view/sequence.rs lines 24-87), as seen by the generic `Concat`
combinator: `σ` is the associated `State` type, `ι` the associated stable
`Index` type, `E` the element type of the element vector.  `to_stable`
returns `none` where the Rust implementation panics; `request` may likewise
propagate a panic.  `rebuild` describes one reconciliation step of a fixed
(self, prev) pair of sequence values, with the id-allocation context `cx`
absorbed; it takes the state, the element vector and the position offset and
returns the updated state, updated elements and the change flags. -/
structure SeqModel (E : Type) : Type 1 where
  σ : Type
  ι : Type
  count : σ → Nat
  to_stable : σ → Position → Option ι
  from_stable : σ → ι → Nat × Bool
  rebuild : σ → List E → Nat → σ × List E × ChangeFlags
  request : σ → ι → RangeI → Option (σ × RangeI)

namespace Concat

variable {E : Type} (u v : SeqModel E)

/-- Model of `Concat::count` (src/src/view/sequence.rs lines 145-147): the
sum of the two child counts. -/
def count (st : u.σ × v.σ) : Nat :=
  u.count st.1 + v.count st.2

/-- Model of `Concat::to_stable` (src/src/view/sequence.rs lines 117-130).
A `none` result models a panic inside a child's `to_stable`. -/
def to_stable (st : u.σ × v.σ) : Position → Option (u.ι ⊕ v.ι)
  | Position.First => (u.to_stable st.1 Position.First).map Sum.inl
  | Position.Sequence position =>
      let first_length := u.count st.1
      if position < first_length then
        (u.to_stable st.1 (Position.Sequence position)).map Sum.inl
      else
        (v.to_stable st.2 (Position.Sequence (position - first_length))).map Sum.inr
  | Position.Last => (v.to_stable st.2 Position.Last).map Sum.inr

/-- Model of `Concat::from_stable` (src/src/view/sequence.rs lines 132-143):
a left-tagged index resolves via U, a right-tagged one via V with U's count
added to the returned position. -/
def from_stable (st : u.σ × v.σ) : u.ι ⊕ v.ι → Nat × Bool
  | Sum.inl index => u.from_stable st.1 index
  | Sum.inr index =>
      let first_len := u.count st.1
      let r := v.from_stable st.2 index
      (first_len + r.1, r.2)

/-- Model of `Concat::rebuild` (src/src/view/sequence.rs lines 103-108).  The
incoming `offset` parameter is unused in the source (U is rebuilt at offset
0) and the `offset` passed to V is recomputed from U's state after U's
rebuild, shadowing the parameter exactly as the `let offset = ...` line of
the source does. -/
def rebuild (st : u.σ × v.σ) (element : List E) (offset : Nat) :
    (u.σ × v.σ) × List E × ChangeFlags :=
  let r0 := u.rebuild st.1 element 0
  let flags := r0.2.2
  let offset := u.count r0.1
  let r1 := v.rebuild st.2 r0.2.1 offset
  let flags2 := r1.2.2
  ((r0.1, r1.1), r1.2.1, flags.union flags2)

/-- Model of `Concat::request` (src/src/view/sequence.rs lines 149-164).  In
the source this function's signature declares no return value, so the model
returns only the updated state; `none` models a panic propagating from a
child call.  Note that in the `Right` branch the source forwards the deficit
to `self.1` (the right child V, on V's already-updated state), not to
`self.0`. -/
def request (st : u.σ × v.σ) (index : u.ι ⊕ v.ι) (offset : RangeI) :
    Option (u.σ × v.σ) :=
  match index with
  | Sum.inl index => do
      let r0 ← u.request st.1 index offset
      let right := r0.2.stop
      let rq := max (offset.stop - right) 0
      let idx2 ← v.to_stable st.2 Position.First
      let r1 ← v.request st.2 idx2 ⟨0, rq⟩
      pure (r0.1, r1.1)
  | Sum.inr index => do
      let r0 ← v.request st.2 index offset
      let left := r0.2.start
      let rq := min (offset.start - left) 0
      let idx2 ← v.to_stable r0.1 Position.Last
      let r1 ← v.request r0.1 idx2 ⟨rq, 0⟩
      pure (st.1, r1.1)

end Concat

/-- The closed grammar of sequence shapes implemented in
src/src/view/sequence.rs: the fixed-arity tuples (`impl_view_tuple!`) and
the `Concat` combinator of two such sequences. -/
inductive Seq where
  | tuple (n : Nat)
  | concat (u v : Seq)

/-- The associated `State` type of each shape.  For a tuple the only part of
the state `( $t::State, ..., [Id; $n])` that the sequence operations modelled
here consult is the id array (the per-child view states are opaque to them),
so the tuple state is modelled as its id list; for `Concat` the state is the
pair of child states (line 92). -/
@[reducible] def Seq.StateT : Seq → Type
  | .tuple _ => List Id
  | .concat u v => u.StateT × v.StateT

/-- The associated stable `Index` type of each shape: `u8` for tuples (line
218), modelled as `Nat` with the `u8` bound enforced at the conversion site,
and `Either<U::Index, V::Index>` for `Concat` (line 93). -/
@[reducible] def Seq.Index : Seq → Type
  | .tuple _ => Nat
  | .concat u v => u.Index ⊕ v.Index

/-- Model of `count`: a tuple reports its arity `$n` (lines 278-280), and
`Concat` the sum of the child counts (lines 145-147). -/
def Seq.count : (s : Seq) → s.StateT → Nat
  | .tuple n, _ => n
  | .concat u v, st => u.count st.1 + v.count st.2

/-- Model of `to_stable`.  For a tuple (lines 264-272): `First` gives 0,
`Sequence(n)` gives `n.try_into().unwrap()` — a conversion to `u8` that
panics (modelled by `none`) exactly when `n > 255` — and `Last` gives
`$n - 1`.  For `Concat` (lines 117-130): `Sequence` positions below U's
count go left, the rest go right shifted down by U's count; `First` goes to
U and `Last` to V. -/
def Seq.to_stable : (s : Seq) → s.StateT → Position → Option s.Index
  | .tuple _, _, Position.First => some 0
  | .tuple _, _, Position.Sequence n => if n ≤ 255 then some n else none
  | .tuple n, _, Position.Last => some (n - 1)
  | .concat u v, st, Position.First =>
      (u.to_stable st.1 Position.First).map Sum.inl
  | .concat u v, st, Position.Sequence position =>
      let first_length := u.count st.1
      if position < first_length then
        (u.to_stable st.1 (Position.Sequence position)).map Sum.inl
      else
        (v.to_stable st.2 (Position.Sequence (position - first_length))).map Sum.inr
  | .concat u v, st, Position.Last =>
      (v.to_stable st.2 Position.Last).map Sum.inr

/-- Model of `from_stable`.  For a tuple (lines 274-276) the source is
`(index as _, true)`: the index is returned unconditionally with `true`.
For `Concat` (lines 132-143) a left index resolves via U and a right index
via V with U's count added.  No operation in either source body can panic,
so the model is total. -/
def Seq.from_stable : (s : Seq) → s.StateT → s.Index → Nat × Bool
  | .tuple _, _, index => (index, true)
  | .concat u _, st, Sum.inl index => u.from_stable st.1 index
  | .concat u v, st, Sum.inr index =>
      let first_len := u.count st.1
      let r := v.from_stable st.2 index
      (first_len + r.1, r.2)

/-- The arities actually instantiated by `impl_view_tuple!` (lines 290-308):
1 through 10. -/
def Seq.wf : Seq → Prop
  | .tuple n => 1 ≤ n ∧ n ≤ 10
  | .concat u v => u.wf ∧ v.wf

/-- Decidability of `Seq.wf`, so that concrete instances evaluate. -/
def Seq.wfDec : (s : Seq) → Decidable s.wf
  | .tuple n => inferInstanceAs (Decidable (1 ≤ n ∧ n ≤ 10))
  | .concat u v =>
      have hu := u.wfDec
      have hv := v.wfDec
      inferInstanceAs (Decidable (u.wf ∧ v.wf))

attribute [instance] Seq.wfDec

/-- Model of `impl_view_tuple!::request` (src/src/view/sequence.rs lines
282-285) for arity `n`: `let i = index as _; -i..($n-i-1)` — the `offset`
argument is never read. -/
def tupleRequest (n : Nat) (index : Nat) (offset : RangeI) : RangeI :=
  let i : Int := index
  ⟨-i, (n : Int) - i - 1⟩

/-- One slot of a tuple sequence as seen by `impl_view_tuple!::event`
(src/src/view/sequence.rs lines 247-262): the id stored in the state's id
array at that slot, paired with the child view's event handler with the
child's own state and the event payload absorbed (the handler takes the
remaining id path and the app state and returns the event result together
with the possibly-mutated app state).  The per-slot child types are
heterogeneous in the source; only this uniform interface of them is used. -/
abbrev EventSlot (T A : Type) : Type := Id × (List Id → T → EventResult A × T)

/-- Model of the if/else chain of `impl_view_tuple!::event` (lines 256-261):
scan the slots in order, first slot whose stored id equals the path head
handles the event with the remaining path; if no slot matches, the result is
`EventResult::Stale` and the app state is untouched. -/
def tupleEventScan {T A : Type} (hd : Id) (tl : List Id) :
    List (EventSlot T A) → T → EventResult A × T
  | [], app_state => (EventResult.Stale, app_state)
  | (i, child) :: rest, app_state =>
      if hd = i then child tl app_state else tupleEventScan hd tl rest app_state

/-- Model of `impl_view_tuple!::event` (src/src/view/sequence.rs lines
247-262).  The source reads `id_path[0]` and `id_path[1..]` without checking
that the slice is non-empty, so on an empty path it panics — modelled by
`none`. -/
def tupleEvent {T A : Type} (slots : List (EventSlot T A))
    (id_path : List Id) (app_state : T) : Option (EventResult A × T) :=
  match id_path with
  | [] => none
  | hd :: tl => some (tupleEventScan hd tl slots app_state)

/-- One slot of a tuple sequence as seen by `impl_view_tuple!::rebuild`
(src/src/view/sequence.rs lines 227-245): the child's state paired with the
child view's rebuild step with `cx`, `prev.$i` and the id absorbed — it
takes the child state and the slot's widget and returns the updated state,
the updated widget and the "changed" report.  (In this source the per-child
rebuild result is the boolean `changed`, not a flag set.) -/
abbrev RebuildSlot (σ : Type) : Type := σ × (σ → Pod → σ × Pod × Bool)

/-- Model of `impl_view_tuple!::rebuild` (src/src/view/sequence.rs lines
227-245): every slot is rebuilt unconditionally in slot order; a slot whose
child reports `true` has `request_update` applied to its widget and sets the
accumulated `changed` flag.  Indexing `els[$i]` out of bounds panics, which
the model renders as `none` when fewer widgets than slots are supplied;
widgets beyond the slots are passed through untouched, as in the source. -/
def tupleRebuild {σ : Type} :
    List (RebuildSlot σ) → List Pod → Option (List σ × List Pod × Bool)
  | [], els => some ([], els, false)
  | _ :: _, [] => none
  | (st, child) :: slots, el :: els =>
      let r := child st el
      let el2 := if r.2.2 then r.2.1.request_update else r.2.1
      (tupleRebuild slots els).map fun rest =>
        (r.1 :: rest.1, el2 :: rest.2.1, r.2.2 || rest.2.2)

/-- An instrumented child sequence used to observe `Concat`'s forwarding
behavior: its state logs every `request` call it receives (anchor index and
offset range, most recent first).  Stable indices are slot numbers as for a
tuple of arity `cnt`; `request` answers with the asked range clamped to the
child's fixed extent `-i..(cnt-1-i)`, as a tuple would. -/
@[reducible] def logModel (cnt : Nat) : SeqModel Unit where
  σ := List (Nat × RangeI)
  ι := Nat
  count := fun _ => cnt
  to_stable := fun _ p =>
    match p with
    | Position.First => some 0
    | Position.Sequence n => if n ≤ 255 then some n else none
    | Position.Last => some (cnt - 1)
  from_stable := fun _ i => (i, true)
  rebuild := fun s els _ => (s, els, 0)
  request := fun s i offset =>
    some ((i, offset) :: s,
      ⟨max offset.start (-(i : Int)), min offset.stop ((cnt : Int) - 1 - i)⟩)

/-- A child sequence whose state is its own current element count and whose
rebuild step changes that count to 5: started in state 3 it reports count 3
before its rebuild and count 5 after. -/
@[reducible] def growModel : SeqModel Unit where
  σ := Nat
  ι := Nat
  count := fun s => s
  to_stable := fun _ _ => some 0
  from_stable := fun _ i => (i, true)
  rebuild := fun _ els _ => (5, els, 0)
  request := fun s _ offset => some (s, offset)

/-- A right-child observer whose rebuild step records in its state the
position offset it was invoked with. -/
@[reducible] def offsetObserver (E : Type) : SeqModel E where
  σ := Nat
  ι := Nat
  count := fun s => s
  to_stable := fun _ _ => some 0
  from_stable := fun _ i => (i, true)
  rebuild := fun _ els offset => (offset, els, 0)
  request := fun s _ offset => some (s, offset)

/-- C1: for every sequence of this repository (every fixed-arity tuple and
every `Concat` of two such sequences) and every position `i < count(state)`,
`to_stable(state, Position::Sequence(i))` succeeds and
`from_stable(state, to_stable(state, Position::Sequence(i)))` returns
`(i, true)`. -/
theorem seq_round_trip :
    ∀ (s : Seq), s.wf → ∀ (st : s.StateT) (i : Nat), i < s.count st →
      ∃ idx, s.to_stable st (Position.Sequence i) = some idx ∧
        s.from_stable st idx = (i, true) := by
  intro s
  induction s with
  | tuple n =>
      intro hwf st i hi
      have hn : i < n := hi
      have h255 : i ≤ 255 := by
        have h10 : n ≤ 10 := hwf.2
        omega
      exact ⟨i, by simp [Seq.to_stable, h255], rfl⟩
  | concat u v ihu ihv =>
      intro hwf st i hi
      have hi2 : i < u.count st.1 + v.count st.2 := hi
      by_cases hlt : i < u.count st.1
      · obtain ⟨idx, h1, h2⟩ := ihu hwf.1 st.1 i hlt
        refine ⟨Sum.inl idx, ?_, ?_⟩
        · simp [Seq.to_stable, hlt, h1]
        · exact h2
      · have hrest : i - u.count st.1 < v.count st.2 := by omega
        obtain ⟨idx, h1, h2⟩ := ihv hwf.2 st.2 _ hrest
        refine ⟨Sum.inr idx, ?_, ?_⟩
        · simp [Seq.to_stable, hlt, h1]
        · show (u.count st.1 + (v.from_stable st.2 idx).1,
              (v.from_stable st.2 idx).2) = (i,
true)
          rw [h2]
          have heq : u.count st.1 + (i - u.count st.1) = i := by omega
          simp [heq]

/-- Witness for C1 at a concrete input: the concat of a 2-tuple and a
3-tuple at position 3 (which falls in the right child) round-trips to
`(3, true)`. -/
theorem seq_round_trip_witness :
    (Seq.concat (Seq.tuple 2) (Seq.tuple 3)).wf ∧
    3 < (Seq.concat (Seq.tuple 2) (Seq.tuple 3)).count ([0, 1], [2, 3, 4]) ∧
    ∃ idx,
      (Seq.concat (Seq.tuple 2) (Seq.tuple 3)).to_stable ([0, 1], [2, 3, 4])
          (Position.Sequence 3) = some idx ∧
      (Seq.concat (Seq.tuple 2) (Seq.tuple 3)).from_stable ([0, 1], [2, 3, 4]) idx
        = (3, true) :=
  ⟨by decide, by decide,
    seq_round_trip (Seq.concat (Seq.tuple 2) (Seq.tuple 3)) (by decide)
      ([0, 1], [2, 3, 4]) 3 (by decide)⟩

/-- C4 (code bug): the trait documents "Panics if `position >= self.count()`"
(src/src/view/sequence.rs lines 62-63), but the tuple `to_stable` only
panics when the position exceeds 255 (its body is `n.try_into().unwrap()`
into `u8`): on a 1-arity tuple, whose count is 1, `Position::Sequence(1)`
returns stable index 1 without panicking (`none` would model the panic). -/
theorem tuple_to_stable_out_of_range_no_panic :
    (Seq.tuple 1).count [0] = 1 ∧
    (Seq.tuple 1).to_stable [0] (Position.Sequence 1) = some 1 ∧
    (Seq.tuple 1).to_stable [0] (Position.Sequence 1) ≠ none := by decide

/-- C5: for every pair of sequences U and V — arbitrary `ViewSequence`
implementations in the first conjunct, the shapes of this repository in the
second — and every pair of states, `count` of `Concat(U, V)` is
`count(U) + count(V)`. -/
theorem concat_count_additive :
    (∀ (E : Type) (u v : SeqModel E) (st : u.σ × v.σ),
        Concat.count u v st = u.count st.1 + v.count st.2) ∧
    (∀ (u v : Seq) (st : (Seq.concat u v).StateT),
        (Seq.concat u v).count st = u.count st.1 + v.count st.2) :=
  ⟨fun _ _ _ _ => rfl, fun _ _ _ => rfl⟩

/-- C6: for every tuple arity `n` (1..10 as instantiated) and every anchor
slot `i < n`, tuple `request` returns exactly `-i..(n-i-1)`, and the result
is independent of the requested offset range. -/
theorem tuple_request_bounds (n i : Nat) (h1 : 1 ≤ n) (h2 : n ≤ 10)
    (hi : i < n) (offset offset2 : RangeI) :
    tupleRequest n i offset = ⟨-(i : Int), (n : Int) - i - 1⟩ ∧
    tupleRequest n i offset = tupleRequest n i offset2 :=
  ⟨rfl, rfl⟩

/-- Witness for C6 at the spec's own example: a 4-arity tuple anchored at
slot 2 yields `-2..1`, whatever range was asked for. -/
theorem tuple_request_bounds_witness :
    1 ≤ 4 ∧ 4 ≤ 10 ∧ 2 < 4 ∧ tupleRequest 4 2 ⟨-100, 100⟩ = ⟨-2, 1⟩ :=
  ⟨by decide, by decide, by decide,
    ((tuple_request_bounds 4 2 (by decide) (by decide) (by decide)
      ⟨-100, 100⟩ ⟨0, 0⟩).1).trans (by decide)⟩

/-- C7 counterexample: on a 1-arity tuple (count 1, whose only live element
has stable index 0), the index 5 denotes no live element, yet `from_stable`
returns `(5, true)` — not `(p, false)` with `p` the position of the nearest
following live element (there is none here, so the claim requires
`(1, false)`). -/
theorem tuple_from_stable_stale_counterexample :
    (Seq.tuple 1).count [0] = 1 ∧
    (Seq.tuple 1).to_stable [0] (Position.Sequence 0) = some 0 ∧
    (Seq.tuple 1).from_stable [0] 5 = (5, true) := by decide

/-- C7 (amended): `from_stable` never panics — no operation in either source
body can fail, so the model is total — and its value is: a tuple returns
`(index, true)` for every index, even one that denotes no live element;
`Concat` resolves a left-tagged index directly via U and a right-tagged
index via V with U's count added and V's hit bit preserved, so a child's
graceful `(p, false)` degradation is propagated shifted, but the sequence
shapes of this repository never produce `false` themselves. -/
theorem from_stable_total_behavior :
    (∀ (n : Nat) (st : (Seq.tuple n).StateT) (index : Nat),
        (Seq.tuple n).from_stable st index = (index, true)) ∧
    (∀ (u v : Seq) (st : (Seq.concat u v).StateT) (index : u.Index),
        (Seq.concat u v).from_stable st (Sum.inl index)
          = u.from_stable st.1 index) ∧
    (∀ (u v : Seq) (st : (Seq.concat u v).StateT) (index : v.Index),
        (Seq.concat u v).from_stable st (Sum.inr index)
          = (u.count st.1 + (v.from_stable st.2 index).1,
              (v.from_stable st.2 index).2)) :=
  ⟨fun _ _ _ => rfl, fun _ _ _ _ => rfl, fun _ _ _ _ => rfl⟩

/-- C10: tuple `event` reads `id_path[0]` and `id_path[1..]` without checking
that the slice is non-empty, so for every slot configuration and every app
state, calling `event` with an empty id path panics (modelled by `none`); a
non-empty `id_path` is an unstated precondition of `event`. -/
theorem tuple_event_empty_path_panics {T A : Type}
    (slots : List (EventSlot T A)) (app_state : T) :
    tupleEvent slots [] app_state = none := rfl

/-- C2 (code bug): with both children instrumented to log the requests they
receive, a right-anchored `Concat::request` (children of extents 3 and 2,
anchor `Right(0)`, asked range `-2..1`) leaves the left child U completely
untouched — its log stays empty — and instead sends the remaining
start-deficit `-2..0`, anchored at `Last`, to the right child V a second
time: the source's `Right` branch calls `self.1` where the mirror image of
its `Left` branch requires `self.0`. -/
theorem concat_request_right_deficit_misdirected :
    Concat.request (logModel 3) (logModel 2) ([], []) (Sum.inr 0) ⟨-2, 1⟩
      = some ([], [(1, ⟨-2, 0⟩), (0, ⟨-2, 1⟩)]) := by decide

/-- C3: in `Concat::rebuild` the right child V is rebuilt at the offset that
`count` reports on U's post-rebuild state: for every left child model and
every starting state, the offset V observes equals U's count evaluated at
U's component of the result state (first conjunct); in particular a left
child whose count changes from 3 to 5 during its rebuild makes V observe
offset 5, not the stale pre-rebuild 3 (second conjunct). -/
theorem concat_rebuild_offset_post_count :
    (∀ (E : Type) (u : SeqModel E) (s0 : u.σ) (sV : Nat) (els : List E)
        (offset : Nat),
        ((Concat.rebuild u (offsetObserver E) (s0, sV) els offset).1).2
          = u.count ((Concat.rebuild u (offsetObserver E) (s0, sV) els offset).1).1) ∧
    (growModel.count 3 = 3 ∧
      ((Concat.rebuild growModel (offsetObserver Unit) (3, 0) [] 0).1).2 = 5) :=
  ⟨fun _ _ _ _ _ _ => rfl, rfl, rfl⟩

/-- C8: tuple `event` on a non-empty id path scans the stored id array in
slot order: when no slot's id equals the path head the result is `Stale`
with the app state untouched (first conjunct); when some slot matches, the
first matching slot's child handles the event with the remaining path and
its result — including its app-state mutation — is returned (second
conjunct). -/
theorem tuple_event_routing {T A : Type} (hd : Id) (tl : List Id)
    (app_state : T) :
    (∀ slots : List (EventSlot T A),
      (∀ p ∈ slots, p.1 ≠ hd) →
        tupleEvent slots (hd :: tl) app_state
          = some (EventResult.Stale, app_state)) ∧
    (∀ (pre : List (EventSlot T A)) (child : List Id → T → EventResult A × T)
        (post : List (EventSlot T A)),
      (∀ p ∈ pre, p.1 ≠ hd) →
        tupleEvent (pre ++ (hd, child) :: post) (hd :: tl) app_state
          = some (child tl app_state)) := by
  constructor
  · intro slots hmiss
    unfold tupleEvent
    induction slots with
    | nil => rfl
    | cons p rest ih =>
        obtain ⟨i, c⟩ := p
        have hne : ¬ hd = i :=
          fun h => (hmiss (i, c) (List.mem_cons_self _ _)) h.symm
        simp only [tupleEventScan, if_neg hne]
        exact ih (fun q hq => hmiss q (List.mem_cons_of_mem _ hq))
  · intro pre child post hmiss
    unfold tupleEvent
    induction pre with
    | nil => simp [tupleEventScan]
    | cons p rest ih =>
        obtain ⟨i, c⟩ := p
        have hne : ¬ hd = i :=
          fun h => (hmiss (i, c) (List.mem_cons_self _ _)) h.symm
        simp only [List.cons_append, tupleEventScan, if_neg hne]
        exact ih (fun q hq => hmiss q (List.mem_cons_of_mem _ hq))

/-- Witness for C8: a 2-slot tuple with ids 7 and 9 over a counter as app
state.  An event whose path head is 5 matches neither slot and yields
`Stale` with the counter unchanged; an event whose path head is 9 is routed
to the second slot's child, which increments the counter. -/
theorem tuple_event_routing_witness :
    tupleEvent
        ([(7, fun _ t => (EventResult.Stale, t)),
          (9, fun _ t => (EventResult.NotHandled, t + 1))] :
            List (EventSlot Nat Unit))
        [5] 0
      = some (EventResult.Stale, 0) ∧
    tupleEvent
        ([(7, fun _ t => (EventResult.Stale, t)),
          (9, fun _ t => (EventResult.NotHandled, t + 1))] :
            List (EventSlot Nat Unit))
        [9] 0
      = some (EventResult.NotHandled, 1) :=
  ⟨(tuple_event_routing 5 [] 0).1
      [(7, fun _ t => (EventResult.Stale, t)),
       (9, fun _ t => (EventResult.NotHandled, t + 1))]
      (by decide),
    (tuple_event_routing 9 [] 0).2
      [(7, fun _ t => (EventResult.Stale, t))]
      (fun _ t => (EventResult.NotHandled, t + 1))
      []
      (by decide)⟩

/-- C9: rebuild unions the children's change reports and loses or invents
none.  First conjunct, `Concat` (lines 103-108): the returned flags are
exactly the union of the flags returned by the two child rebuild calls.
Second conjunct, tuples (lines 227-245): given at least as many widgets as
slots, every slot's child is rebuilt exactly once in order, the i-th widget
has `request_update` applied exactly when the i-th child reports a change,
surplus widgets pass through untouched, and the returned `changed` report is
the disjunction (the union, for the boolean report this source uses) of the
per-child reports. -/
theorem rebuild_flags_union :
    (∀ (E : Type) (u v : SeqModel E) (st : u.σ × v.σ) (els : List E)
        (offset : Nat),
        (Concat.rebuild u v st els offset).2.2
          = ((u.rebuild st.1 els 0).2.2).union
              ((v.rebuild st.2 (u.rebuild st.1 els 0).2.1
                  (u.count (u.rebuild st.1 els 0).1)).2.2)) ∧
    (∀ (σ : Type) (slots : List (RebuildSlot σ)) (els : List Pod),
        slots.length ≤ els.length →
        tupleRebuild slots els
          = some
            ((slots.zip els).map (fun p => (p.1.2 p.1.1 p.2).1),
             ((slots.zip els).map (fun p =>
                let r := p.1.2 p.1.1 p.2
                if r.2.2 then r.2.1.request_update else r.2.1))
               ++ els.drop slots.length,
             (slots.zip els).any (fun p => (p.1.2 p.1.1 p.2).2.2))) := by
  constructor
  · intro E u v st els offset
    rfl
  · intro σ slots
    induction slots with
    | nil =>
        intro els h
        simp [tupleRebuild]
    | cons s rest ih =>
        intro els h
        match els with
        | [] => simp at h
        | el :: els2 =>
            obtain ⟨st, child⟩ := s
            have h2 : rest.length ≤ els2.length := by
              simpa using h
            simp only [tupleRebuild, ih els2 h2, Option.map_some]
            simp [List.zip_cons_cons]

/-- Witness for C9's tuple conjunct: two slots over counter states, the
first reporting a change and the second not; the first widget is marked for
update, the second is not, and the accumulated report is `true`. -/
theorem rebuild_flags_union_witness :
    tupleRebuild
        ([(0, fun s p => (s + 10, p, true)), (1, fun s p => (s, p, false))] :
            List (RebuildSlot Nat))
        [⟨0, false⟩, ⟨1, false⟩]
      = some ([10, 1], [⟨0, true⟩, ⟨1, false⟩], true) :=
  (rebuild_flags_union.2 Nat
      [(0, fun s p => (s + 10, p, true)), (1, fun s p => (s, p, false))]
      [⟨0, false⟩, ⟨1, false⟩] (by decide)).trans (by decide)

end XilemSeq
